import Mathlib

set_option maxHeartbeats 1000000

namespace Pylsyncd

/-! Shallow embedding of pylsyncd (src/pylsyncd.py). Python strings (paths)
are modelled as lists of characters, Python lists as Lean lists, and the
filesystem existence test of the optimizer as an explicit oracle. -/

/-- Paths are modelled as lists of characters (Python strings). -/
abbrev Path := List Char

/-- Tests whether the first list begins with the second (Python str.startswith). -/
def beginsWith : Path → Path → Bool
  | _, [] => true
  | [], _ :: _ => false
  | a :: l, b :: p => a == b && beginsWith l p

/-- Locates the first occurrence of the separator in the string, returning the
part strictly before it and the part strictly after it, mirroring the two
pieces of Python str.split(sep, 1) when the separator occurs. -/
def findFirst (sep : Path) : Path → Option (Path × Path)
  | [] => none
  | a :: l =>
    if beginsWith (a :: l) sep then some ([], (a :: l).drop sep.length)
    else
      match findFirst sep l with
      | some r => some (a :: r.1, r.2)
      | none => none

/-- Model of Python s.split(sep, 1)[0]: the part before the first occurrence of
sep, or the whole string when sep does not occur. -/
def beforeFirst (sep : Path) (s : Path) : Path :=
  match findFirst sep s with
  | some r => r.1
  | none => s

/-- Model of Python s.split(sep, 1)[-1]: the part after the first occurrence of
sep, or the whole string when sep does not occur. -/
def afterFirst (sep : Path) (s : Path) : Path :=
  match findFirst sep s with
  | some r => r.2
  | none => s

/-- Model of the Python containment test (sep in s) for a non-empty separator. -/
def pyContains (sep : Path) (s : Path) : Bool := (findFirst sep s).isSome

/-- Model of Python s.split(c) for a single-character separator. -/
def splitCh (c : Char) : Path → List Path
  | [] => [[]]
  | a :: l =>
    let r := splitCh c l
    if a == c then [] :: r
    else (a :: r.headI) :: r.tail

/-- Model of Python s.rsplit(sep, 1)[-1] for the single-character separator /:
the suffix after the last slash, or the whole string when no slash occurs. -/
def afterLastSlash (s : Path) : Path :=
  (s.reverse.takeWhile (fun c => c != '/')).reverse

/-- Model of Python os.path.join for exactly two arguments on POSIX. -/
def joinPath (a b : Path) : Path :=
  if beginsWith b ['/'] then b
  else if a = [] ∨ a.getLastD ' ' = '/' then a ++ b
  else a ++ '/' :: b

/-- Model of Python os.path.normpath on POSIX: collapse repeated separators,
drop single-dot components, resolve double-dot components where possible,
keeping the special treatment of exactly two leading slashes. -/
def normpathL (p : Path) : Path :=
  if p = [] then ['.']
  else
    let slashes : Nat :=
      if beginsWith p ['/', '/'] && !beginsWith p ['/', '/', '/'] then 2
      else if beginsWith p ['/'] then 1 else 0
    let comps := splitCh '/' p
    let newComps := comps.foldl
      (fun acc comp =>
        if comp = [] ∨ comp = ['.'] then acc
        else if comp ≠ ['.', '.'] ∨ (slashes = 0 ∧ acc = []) ∨
            (acc ≠ [] ∧ acc.getLastD [] = ['.', '.']) then acc ++ [comp]
        else if acc ≠ [] then acc.dropLast
        else acc) []
    let joined := List.intercalate ['/'] newComps
    let out := List.replicate slashes '/' ++ joined
    if out = [] then ['.'] else out

/-- Model of Python os.path.abspath relative to an explicit current working
directory: join with the working directory when relative, then normalize. -/
def abspathL (cwd p : Path) : Path :=
  if beginsWith p ['/'] then normpathL p else normpathL (joinPath cwd p)

/-- Model of the helper _is_subdir of src/pylsyncd.py: dir lies strictly below
parent iff the absolute form of dir is strictly longer than the absolute form
of parent followed by a slash and begins with that string. -/
def isSubdir (cwd parent dir : Path) : Bool :=
  let pp := abspathL cwd parent ++ ['/']
  let pd := abspathL cwd dir
  decide (pp.length < pd.length) && beginsWith pd pp

/-- Model of the class Item of src/pylsyncd.py: an intent to synchronize a
filesystem location, a path together with a recursive flag. -/
structure Item where
  path : Path
  recursive : Bool
  deriving DecidableEq

/-- Model of the class ItemQueue of src/pylsyncd.py: the per-destination
staging area, keeping non-recursive paths in dirs and recursive paths in
trees, in insertion order as in the Python lists. -/
structure ItemQueue where
  dirs : List Path
  trees : List Path
  deriving DecidableEq

/-- Model of ItemQueue.__len__: the combined number of staged paths. -/
def ItemQueue.lenQ (q : ItemQueue) : Nat := q.dirs.length + q.trees.length

/-- Model of ItemQueue.add: a recursive item is appended to trees unless its
path is already there; a non-recursive item is appended to dirs unless its
path is already in dirs or in trees. -/
def ItemQueue.add (q : ItemQueue) (it : Item) : ItemQueue :=
  if it.recursive then
    if it.path ∈ q.trees then q else { q with trees := q.trees ++ [it.path] }
  else
    if it.path ∈ q.dirs ∨ it.path ∈ q.trees then q
    else { q with dirs := q.dirs ++ [it.path] }

/-- Folds ItemQueue.add over a list of items, the queue state after a whole
sequence of add calls. -/
def ItemQueue.addAll (q : ItemQueue) (its : List Item) : ItemQueue :=
  its.foldl ItemQueue.add q

/-- Stable insertion of a path into a list sorted by ascending length, placing
the new element after existing elements of no greater length. -/
def insertByLen (x : Path) : List Path → List Path
  | [] => [x]
  | y :: ys => if y.length ≤ x.length then y :: insertByLen x ys else x :: y :: ys

/-- Model of the in-place Python sort with comparator len(x) - len(y): a stable
sort by ascending path length, as a left-to-right insertion sort. -/
def sortByLen (l : List Path) : List Path :=
  l.foldl (fun acc x => insertByLen x acc) []

/-- Model of ItemQueue.optimize of src/pylsyncd.py. The filesystem existence
test os.path.exists is the oracle fs and the working directory used by
os.path.abspath inside _is_subdir is cwd. The Python loop (for tree in
self.trees) iterates over the sorted original list object while self.trees is
rebound to filtered copies, hence the fold over the sorted list starting from
the sorted list itself; the dirs loop then iterates over the collapsed trees
list. When the queue is empty the method returns at once without filtering. -/
def ItemQueue.optimize (fs : Path → Bool) (cwd : Path) (q : ItemQueue) : ItemQueue :=
  if q.lenQ = 0 then q
  else
    let trees1 :=
      if q.trees.length ≠ 0 then
        let ts := sortByLen q.trees
        ts.foldl (fun acc t => acc.filter (fun x => !isSubdir cwd t x)) ts
      else q.trees
    let dirs1 :=
      if q.trees.length ≠ 0 ∧ q.dirs.length ≠ 0 then
        trees1.foldl (fun acc t => acc.filter (fun x => !isSubdir cwd t x)) q.dirs
      else q.dirs
    { dirs := dirs1.filter fs, trees := trees1.filter fs }

/-- Model of Destination.__synchronize: an empty item list succeeds at once
without invoking rsync; otherwise rsync is invoked once, its outcome given by
the oracle, and the invocation is recorded as the pair of the item list and
the recursive mode. -/
def syncHalf (rsyncOk : List Path → Bool → Bool) (items : List Path)
    (recursive : Bool) : Bool × List (List Path × Bool) :=
  if items.length = 0 then (true, [])
  else (rsyncOk items recursive, [(items, recursive)])

/-- Model of Destination.synchronize: returns the final queue, the reported
success and the list of rsync invocations performed. The trees half runs
first and is emptied on success, then the dirs half likewise; the method
reports success iff the queue is empty afterwards. -/
def synchronize (rsyncOk : List Path → Bool → Bool) (q : ItemQueue) :
    ItemQueue × Bool × List (List Path × Bool) :=
  if q.lenQ = 0 then (q, true, [])
  else
    let t := syncHalf rsyncOk q.trees true
    let q1 := if t.1 then { q with trees := [] } else q
    let d := syncHalf rsyncOk q1.dirs false
    let q2 := if d.1 then { q1 with dirs := [] } else q1
    (q2, decide (q2.lenQ = 0), t.2 ++ d.2)

/-- Model of a Python Item object as a heap object: Item defines neither
__eq__ nor __hash__, so comparison falls back to object identity, modelled
here by an allocation identifier oid. -/
structure PyItemObj where
  oid : Nat
  path : Path
  recursive : Bool
  deriving DecidableEq

/-- Model of Python equality between two Item objects: the class defines no
__eq__, so two objects compare equal iff they are the same object. -/
def pyItemEq (a b : PyItemObj) : Bool := a.oid == b.oid

/-- Model of the class Timer of src/pylsyncd.py, with time passed explicitly
as a rational number of seconds. -/
structure Timer where
  running : Bool
  start_time : ℚ
  time_limit : ℚ

/-- Model of Timer.start: asserts that the timer is not running (none models
the failed assertion), then records the start time and the limit. -/
def Timer.start (t : Timer) (now limit : ℚ) : Option Timer :=
  if t.running then none
  else some { running := true, start_time := now, time_limit := limit }

/-- Model of Timer.stop: asserts that the timer is running. -/
def Timer.stop (t : Timer) : Option Timer :=
  if t.running then some { t with running := false } else none

/-- Model of Timer.reset: asserts that the timer is running, then restarts
from now with the same limit. -/
def Timer.reset (t : Timer) (now : ℚ) : Option Timer :=
  if t.running then some { t with start_time := now } else none

/-- Model of Timer.remaining: asserts that the timer is running, then returns
max(0, start_time + time_limit - now). -/
def Timer.remaining (t : Timer) (now : ℚ) : Option ℚ :=
  if t.running then some (max 0 (t.start_time + t.time_limit - now)) else none

/-- Global constant TIME_SLEEP_FAILURE of src/pylsyncd.py. -/
def TIME_SLEEP_FAILURE : Nat := 60

/-- Global constant MAX_SYNC_FAILURES of src/pylsyncd.py. -/
def MAX_SYNC_FAILURES : Nat := 5

/-- Failure-count update of the worker loop of src/pylsyncd.py: every
synchronize outcome either resets the count to zero on success or increases
it by one on failure (in state S2 the count is zero, so the assignment
failcount = 1 there coincides with an increment). -/
def syncStep (f : Nat) (ok : Bool) : Nat := if ok then 0 else f + 1

/-- Model of the failure handling of the worker loop of src/pylsyncd.py,
driven by the list of outcomes of the successive synchronize calls. At the
top of each iteration the worker exits (dropped) once failcount has reached
MAX_SYNC_FAILURES; otherwise, when failcount is positive it sleeps failcount
times TIME_SLEEP_FAILURE seconds before the retry. The result is the list of
sleeps performed, the final failcount and whether the worker dropped the
destination. -/
def runWorker : Nat → List Bool → List Nat × Nat × Bool
  | f, [] => ([], f, decide (MAX_SYNC_FAILURES ≤ f))
  | f, ok :: rest =>
    if MAX_SYNC_FAILURES ≤ f then ([], f, true)
    else
      let r := runWorker (syncStep f ok) rest
      ((if f = 0 then r.1 else f * TIME_SLEEP_FAILURE :: r.1), r.2)

/-- The property that a list of synchronize outcomes contains somewhere a run
of n consecutive failures. -/
def failWindow (n : Nat) (l : List Bool) : Prop :=
  ∃ l₁ l₂, l = l₁ ++ List.replicate n false ++ l₂

/-- The property that a list of synchronize outcomes begins with n consecutive
failures. -/
def failPre (n : Nat) (l : List Bool) : Prop :=
  ∃ l₂, l = List.replicate n false ++ l₂

/-- Result of the path setter of the class Destination: the remote flag, the
shortname used in logs, and the normalized destination path. -/
structure DestSpec where
  remote : Bool
  name : Path
  path : Path
  deriving DecidableEq

/-- The literal prefix marker rsync:// of the first parser branch. -/
def rsyncMarker : Path := ['r', 's', 'y', 'n', 'c', ':', '/', '/']

/-- Model of the path setter of the class Destination of src/pylsyncd.py,
with the working directory of os.path.abspath passed explicitly. The four
branches are: the rsync:// daemon URL form, the host::module daemon form,
the host:path ssh form, and the local path form. -/
def destPathSet (cwd s : Path) : DestSpec :=
  if beginsWith s rsyncMarker then
    let server := beforeFirst [':'] (afterFirst ['@']
      (beforeFirst ['/'] (afterFirst rsyncMarker s)))
    let suffix : Path := if !beginsWith s.reverse ['/'] then ['/'] else []
    { remote := true, name := server, path := s ++ suffix }
  else if pyContains [':', ':'] s then
    let server := beforeFirst [':'] (afterFirst ['@'] (beforeFirst [':', ':'] s))
    let suffix : Path := if !beginsWith s.reverse ['/'] then ['/'] else []
    { remote := true, name := server, path := s ++ suffix }
  else if pyContains [':'] s then
    let server := beforeFirst [':'] (afterFirst ['@'] (beforeFirst [':'] s))
    let suffix : Path :=
      if !beginsWith s.reverse [':'] && !beginsWith s.reverse ['/'] then ['/'] else []
    { remote := true, name := server, path := s ++ suffix }
  else
    { remote := false, name := afterLastSlash (normpathL s),
      path := abspathL cwd s ++ ['/'] }

/-- Strict-descendant relation as worded in the specification: a is a strict
descendant of b iff the absolute form of a is strictly longer than the
absolute form of b followed by a slash and begins with that string. -/
def specDescendant (cwd a b : Path) : Prop :=
  (abspathL cwd b ++ ['/']).length < (abspathL cwd a).length ∧
  beginsWith (abspathL cwd a) (abspathL cwd b ++ ['/']) = true

instance (cwd a b : Path) : Decidable (specDescendant cwd a b) := by
  unfold specDescendant; infer_instance

/-! Validation of the embedding on the concrete scenarios of the
specification (section 8) and other hand-checked values. -/

theorem modelCheck1 : normpathL ['/', 'a', '/', '/', 'b', '/', '.', '.', '/', 'c'] = ['/', 'a', '/', 'c'] := by decide
theorem modelCheck2 : normpathL ['.'] = ['.'] := by decide
theorem modelCheck3 : normpathL [] = ['.'] := by decide
theorem modelCheck4 : abspathL ['/', 'h'] ['x'] = ['/', 'h', '/', 'x'] := by decide
theorem modelCheck5 : afterLastSlash ['/', 'a', '/', 'b', 'c'] = ['b', 'c'] := by decide
theorem modelCheck6 : isSubdir ['/'] ['/', 'a'] ['/', 'a', '/', 'b'] = true := by decide
theorem modelCheck7 : isSubdir ['/'] ['/', 'a'] ['/', 'a'] = false := by decide
theorem modelCheck8 : isSubdir ['/'] ['/', 'a'] ['/', 'a', 'b'] = false := by decide
theorem modelCheck9 : pyContains [':', ':'] ['a', ':', ':', 'b'] = true := by decide
theorem modelCheck10 : pyContains [':'] ['/', 'a'] = false := by decide
theorem modelCheck11 : ("ab".toList) = ['a', 'b'] := by decide
theorem modelCheck12 : destPathSet "/".toList "bob@h2::backup".toList =
    { remote := true, name := "h2".toList, path := "bob@h2::backup/".toList } := by decide
theorem modelCheck13 : destPathSet "/".toList "server:/var/lib".toList =
    { remote := true, name := "server".toList, path := "server:/var/lib/".toList } := by decide
theorem modelCheck14 : destPathSet "/".toList "/srv/mirror".toList =
    { remote := false, name := "mirror".toList, path := "/srv/mirror/".toList } := by decide
theorem modelCheck15 : destPathSet "/".toList "rsync://alice@host.example:873/data".toList =
    { remote := true, name := "host.example".toList,
      path := "rsync://alice@host.example:873/data/".toList } := by decide
theorem modelCheck16 : runWorker 0 [false, false, false, false, false] =
    ([60, 120, 180, 240], 5, true) := by decide
theorem modelCheck17 : runWorker 0 [false, false, true] = ([60, 120], 0, false) := by decide
theorem modelCheck18 :
    (ItemQueue.addAll ⟨[], []⟩ [⟨"/a".toList, false⟩, ⟨"/a".toList, true⟩]) =
    ⟨["/a".toList], ["/a".toList]⟩ := by decide
theorem modelCheck19 :
    (ItemQueue.optimize (fun _ => true) "/".toList
      ⟨["/a/b/c".toList], ["/a/b".toList, "/a".toList]⟩) =
    ⟨[], ["/a".toList]⟩ := by decide
theorem modelCheck20 : beforeFirst [':'] ['a', ':', 'b', ':', 'c'] = ['a'] := by decide
theorem modelCheck21 : afterFirst ['@'] ['u', '@', 'h', '@', 'x'] = ['h', '@', 'x'] := by decide

/-! Helper lemmas. -/

theorem isSubdir_iff (cwd a b : Path) :
    isSubdir cwd b a = true ↔ specDescendant cwd a b := by
  simp [isSubdir, specDescendant, Bool.and_eq_true]

theorem mem_filter_foldl {α : Type} (p : α → α → Bool) :
    ∀ (l acc : List α) (x : α),
      x ∈ l.foldl (fun a t => a.filter (fun y => p t y)) acc →
      x ∈ acc ∧ ∀ t ∈ l, p t x = true := by
  intro l
  induction l with
  | nil =>
    intro acc x h
    exact ⟨h, by simp⟩
  | cons t ts ih =>
    intro acc x h
    simp only [List.foldl_cons] at h
    obtain ⟨h1, h2⟩ := ih _ x h
    rw [List.mem_filter] at h1
    refine ⟨h1.1, ?_⟩
    intro u hu
    rcases List.mem_cons.mp hu with rfl | hu
    · exact h1.2
    · exact h2 _ hu

theorem mem_filter_foldl_of {α : Type} (p : α → α → Bool) :
    ∀ (l acc : List α) (x : α), x ∈ acc → (∀ t ∈ l, p t x = true) →
      x ∈ l.foldl (fun a t => a.filter (fun y => p t y)) acc := by
  intro l
  induction l with
  | nil =>
    intro acc x h _
    exact h
  | cons t ts ih =>
    intro acc x h hall
    simp only [List.foldl_cons]
    refine ih _ x ?_ ?_
    · rw [List.mem_filter]
      exact ⟨h, hall t (List.mem_cons_self t ts)⟩
    · intro u hu
      exact hall u (List.mem_cons_of_mem t hu)

theorem mem_insertByLen (x y : Path) : ∀ (l : List Path),
    x ∈ insertByLen y l ↔ x = y ∨ x ∈ l := by
  intro l
  induction l with
  | nil => simp [insertByLen]
  | cons z zs ih =>
    by_cases h : z.length ≤ y.length
    · simp only [insertByLen, if_pos h, List.mem_cons, ih]
      tauto
    · simp only [insertByLen, if_neg h, List.mem_cons]

theorem mem_sortByLen_aux (x : Path) : ∀ (l acc : List Path),
    x ∈ l.foldl (fun a y => insertByLen y a) acc ↔ x ∈ acc ∨ x ∈ l := by
  intro l
  induction l with
  | nil => simp
  | cons z zs ih =>
    intro acc
    simp only [List.foldl_cons, ih, mem_insertByLen, List.mem_cons]
    tauto

theorem mem_sortByLen (x : Path) (l : List Path) :
    x ∈ sortByLen l ↔ x ∈ l := by
  simp [sortByLen, mem_sortByLen_aux]

theorem add_dirs_provenance (q : ItemQueue) (it : Item) (p : Path)
    (h : p ∈ (q.add it).dirs) :
    p ∈ q.dirs ∨ (it.recursive = false ∧ p = it.path) := by
  unfold ItemQueue.add at h
  by_cases hr : it.recursive
  · simp only [hr, if_pos] at h
    split at h <;> [exact Or.inl h; exact Or.inl h]
  · simp only [hr] at h
    simp only [Bool.false_eq_true, if_neg, if_false] at h
    split at h
    · exact Or.inl h
    · rcases List.mem_append.mp h with h1 | h1
      · exact Or.inl h1
      · right
        exact ⟨Bool.eq_false_iff.mpr hr ▸ rfl, List.mem_singleton.mp h1⟩

theorem add_trees_provenance (q : ItemQueue) (it : Item) (p : Path)
    (h : p ∈ (q.add it).trees) :
    p ∈ q.trees ∨ (it.recursive = true ∧ p = it.path) := by
  unfold ItemQueue.add at h
  by_cases hr : it.recursive
  · simp only [hr, if_pos] at h
    split at h
    · exact Or.inl h
    · rcases List.mem_append.mp h with h1 | h1
      · exact Or.inl h1
      · exact Or.inr ⟨hr, List.mem_singleton.mp h1⟩
  · simp only [hr] at h
    simp only [Bool.false_eq_true, if_neg, if_false] at h
    split at h <;> [exact Or.inl h; exact Or.inl h]

theorem add_nodup (q : ItemQueue) (it : Item)
    (hd : q.dirs.Nodup) (ht : q.trees.Nodup) :
    (q.add it).dirs.Nodup ∧ (q.add it).trees.Nodup := by
  unfold ItemQueue.add
  by_cases hr : it.recursive
  · simp only [hr, if_pos]
    by_cases hm : it.path ∈ q.trees
    · simp [hm, hd, ht]
    · simp [hm, hd, ht, List.nodup_append, List.disjoint_singleton]
  · simp only [hr, Bool.false_eq_true, if_false]
    by_cases hm : it.path ∈ q.dirs ∨ it.path ∈ q.trees
    · simp [hm, hd, ht]
    · push_neg at hm
      simp [hm.1, hm.2, hd, ht, List.nodup_append, List.disjoint_singleton]

theorem addAll_nodup : ∀ (its : List Item) (q : ItemQueue),
    q.dirs.Nodup → q.trees.Nodup →
    (q.addAll its).dirs.Nodup ∧ (q.addAll its).trees.Nodup := by
  intro its
  induction its with
  | nil =>
    intro q hd ht
    exact ⟨hd, ht⟩
  | cons it rest ih =>
    intro q hd ht
    obtain ⟨hd1, ht1⟩ := add_nodup q it hd ht
    exact ih (q.add it) hd1 ht1

theorem addAll_dirs_provenance : ∀ (its : List Item) (q : ItemQueue) (p : Path),
    p ∈ (q.addAll its).dirs → p ∈ q.dirs ∨ Item.mk p false ∈ its := by
  intro its
  induction its with
  | nil =>
    intro q p h
    exact Or.inl h
  | cons it rest ih =>
    intro q p h
    rcases ih (q.add it) p h with h1 | h1
    · rcases add_dirs_provenance q it p h1 with h2 | ⟨h2, rfl⟩
      · exact Or.inl h2
      · right
        have : Item.mk it.path false = it := by
          cases it with
          | mk pa re => simp_all
        rw [this]
        exact List.mem_cons_self it rest
    · exact Or.inr (List.mem_cons_of_mem it h1)

theorem addAll_trees_provenance : ∀ (its : List Item) (q : ItemQueue) (p : Path),
    p ∈ (q.addAll its).trees → p ∈ q.trees ∨ Item.mk p true ∈ its := by
  intro its
  induction its with
  | nil =>
    intro q p h
    exact Or.inl h
  | cons it rest ih =>
    intro q p h
    rcases ih (q.add it) p h with h1 | h1
    · rcases add_trees_provenance q it p h1 with h2 | ⟨h2, rfl⟩
      · exact Or.inl h2
      · right
        have : Item.mk it.path true = it := by
          cases it with
          | mk pa re => simp_all
        rw [this]
        exact List.mem_cons_self it rest
    · exact Or.inr (List.mem_cons_of_mem it h1)

theorem lenQ_eq_zero {q : ItemQueue} (h : q.lenQ = 0) :
    q.dirs = [] ∧ q.trees = [] := by
  unfold ItemQueue.lenQ at h
  constructor
  · exact List.length_eq_zero.mp (by omega)
  · exact List.length_eq_zero.mp (by omega)

theorem optimize_trees_not_sub (fs : Path → Bool) (cwd : Path) (q : ItemQueue)
    (a b : Path) (ha : a ∈ (q.optimize fs cwd).trees)
    (hb : b ∈ (q.optimize fs cwd).trees) :
    isSubdir cwd b a = false := by
  unfold ItemQueue.optimize at ha hb
  by_cases h0 : q.lenQ = 0
  · obtain ⟨_, ht⟩ := lenQ_eq_zero h0
    rw [if_pos h0] at ha
    rw [ht] at ha
    simp at ha
  · rw [if_neg h0] at ha hb
    simp only [List.mem_filter] at ha hb
    by_cases htl : q.trees.length ≠ 0
    · simp only [if_pos htl] at ha hb
      obtain ⟨hain, hall⟩ := mem_filter_foldl _ _ _ _ ha.1
      obtain ⟨hbin, _⟩ := mem_filter_foldl _ _ _ _ hb.1
      have := hall b hbin
      simpa using this
    · simp only [if_neg htl] at ha
      push_neg at htl
      rw [List.length_eq_zero.mp htl] at ha
      simp at ha

theorem optimize_dirs_not_sub (fs : Path → Bool) (cwd : Path) (q : ItemQueue)
    (d t : Path) (hd : d ∈ (q.optimize fs cwd).dirs)
    (ht : t ∈ (q.optimize fs cwd).trees) :
    isSubdir cwd t d = false := by
  unfold ItemQueue.optimize at hd ht
  by_cases h0 : q.lenQ = 0
  · obtain ⟨_, htr⟩ := lenQ_eq_zero h0
    rw [if_pos h0] at ht
    rw [htr] at ht
    simp at ht
  · rw [if_neg h0] at hd ht
    simp only [List.mem_filter] at hd ht
    by_cases htl : q.trees.length ≠ 0
    · simp only [if_pos htl] at ht
      by_cases hdl : q.dirs.length ≠ 0
      · simp only [if_pos htl, if_pos (And.intro htl hdl)] at hd
        obtain ⟨_, hall⟩ := mem_filter_foldl _ _ _ _ hd.1
        have := hall t ht.1
        simpa using this
      · rw [if_neg (by tauto : ¬ (q.trees.length ≠ 0 ∧ q.dirs.length ≠ 0))] at hd
        push_neg at hdl
        rw [List.length_eq_zero.mp hdl] at hd
        simp at hd
    · simp only [if_neg htl] at ht
      push_neg at htl
      rw [List.length_eq_zero.mp htl] at ht
      simp at ht

theorem optimize_dirs_sub (fs : Path → Bool) (cwd : Path) (q : ItemQueue)
    (p : Path) (h : p ∈ (q.optimize fs cwd).dirs) : p ∈ q.dirs := by
  unfold ItemQueue.optimize at h
  by_cases h0 : q.lenQ = 0
  · rwa [if_pos h0] at h
  · rw [if_neg h0] at h
    simp only [List.mem_filter] at h
    split at h
    · exact (mem_filter_foldl _ _ _ _ h.1).1
    · exact h.1

theorem optimize_trees_sub (fs : Path → Bool) (cwd : Path) (q : ItemQueue)
    (p : Path) (h : p ∈ (q.optimize fs cwd).trees) : p ∈ q.trees := by
  unfold ItemQueue.optimize at h
  by_cases h0 : q.lenQ = 0
  · rwa [if_pos h0] at h
  · rw [if_neg h0] at h
    simp only [List.mem_filter] at h
    split at h
    · have := (mem_filter_foldl _ _ _ _ h.1).1
      exact (mem_sortByLen _ _).mp this
    · exact h.1

theorem optimize_dirs_fs (fs : Path → Bool) (cwd : Path) (q : ItemQueue)
    (p : Path) (h : p ∈ (q.optimize fs cwd).dirs) : fs p = true := by
  unfold ItemQueue.optimize at h
  by_cases h0 : q.lenQ = 0
  · obtain ⟨hdr, _⟩ := lenQ_eq_zero h0
    rw [if_pos h0] at h
    rw [hdr] at h
    simp at h
  · rw [if_neg h0] at h
    exact (List.mem_filter.mp h).2

theorem optimize_trees_fs (fs : Path → Bool) (cwd : Path) (q : ItemQueue)
    (p : Path) (h : p ∈ (q.optimize fs cwd).trees) : fs p = true := by
  unfold ItemQueue.optimize at h
  by_cases h0 : q.lenQ = 0
  · obtain ⟨_, htr⟩ := lenQ_eq_zero h0
    rw [if_pos h0] at h
    rw [htr] at h
    simp at h
  · rw [if_neg h0] at h
    exact (List.mem_filter.mp h).2

theorem failPre_zero (l : List Bool) : failPre 0 l := ⟨l, rfl⟩

theorem failWindow_nil (n : Nat) : failWindow n [] ↔ n = 0 := by
  constructor
  · rintro ⟨l₁, l₂, h⟩
    have := congrArg List.length h
    simp at this
    omega
  · rintro rfl
    exact ⟨[], [], rfl⟩

theorem failWindow_length {n : Nat} {l : List Bool} (h : failWindow n l) :
    n ≤ l.length := by
  obtain ⟨l₁, l₂, rfl⟩ := h
  simp
  omega

theorem failWindow_cons (n : Nat) (a : Bool) (l : List Bool) :
    failWindow n (a :: l) ↔ failPre n (a :: l) ∨ failWindow n l := by
  constructor
  · rintro ⟨l₁, l₂, h⟩
    cases l₁ with
    | nil =>
      left
      exact ⟨l₂, by simpa using h⟩
    | cons b l₁ =>
      right
      simp only [List.cons_append] at h
      rw [List.cons.injEq] at h
      exact ⟨l₁, l₂, h.2⟩
  · rintro (⟨l₂, h⟩ | ⟨l₁, l₂, h⟩)
    · exact ⟨[], l₂, by simpa using h⟩
    · exact ⟨a :: l₁, l₂, by simp [h]⟩

theorem failPre_true (n : Nat) (l : List Bool) :
    failPre n (true :: l) ↔ n = 0 := by
  constructor
  · rintro ⟨l₂, h⟩
    cases n with
    | zero => rfl
    | succ m =>
      rw [List.replicate_succ] at h
      simp at h
  · rintro rfl
    exact failPre_zero _

theorem failPre_false (n : Nat) (l : List Bool) :
    failPre (n + 1) (false :: l) ↔ failPre n l := by
  constructor
  · rintro ⟨l₂, h⟩
    rw [List.replicate_succ, List.cons_append, List.cons.injEq] at h
    exact ⟨l₂, h.2⟩
  · rintro ⟨l₂, h⟩
    exact ⟨l₂, by rw [List.replicate_succ, List.cons_append, h]⟩

theorem failPre_extend {n : Nat} {xs : List Bool} (zs : List Bool)
    (h : failPre n xs) : failPre n (xs ++ zs) := by
  obtain ⟨l₂, rfl⟩ := h
  exact ⟨l₂ ++ zs, by simp⟩

theorem failPre_append_true : ∀ (xs : List Bool) (n : Nat) (ys : List Bool),
    failPre n (xs ++ true :: ys) → failPre n xs := by
  intro xs
  induction xs with
  | nil =>
    intro n ys h
    have := (failPre_true n ys).mp h
    rw [this]
    exact failPre_zero _
  | cons b xs ih =>
    intro n ys h
    cases n with
    | zero => exact failPre_zero _
    | succ m =>
      obtain ⟨l₂, hl⟩ := h
      rw [List.replicate_succ, List.cons_append, List.cons_append,
        List.cons.injEq] at hl
      obtain ⟨rfl, hl2⟩ := hl
      have := ih m ys ⟨l₂, hl2⟩
      exact (failPre_false m xs).mpr this

theorem failWindow_append_true : ∀ (xs : List Bool) (n : Nat) (ys : List Bool),
    failWindow n (xs ++ true :: ys) ↔ failWindow n xs ∨ failWindow n ys := by
  intro xs
  induction xs with
  | nil =>
    intro n ys
    rw [List.nil_append, failWindow_cons, failPre_true, failWindow_nil]
  | cons a xs ih =>
    intro n ys
    rw [List.cons_append, failWindow_cons, ih, failWindow_cons]
    constructor
    · rintro (h | h | h)
      · exact Or.inl (Or.inl (failPre_append_true (a :: xs) n ys h))
      · exact Or.inl (Or.inr h)
      · exact Or.inr h
    · rintro ((h | h) | h)
      · left
        have := failPre_extend (true :: ys) h
        simpa using this
      · exact Or.inr (Or.inl h)
      · exact Or.inr (Or.inr h)

theorem runWorker_dropped_of_ge {f : Nat} (h : MAX_SYNC_FAILURES ≤ f) :
    ∀ outs : List Bool, (runWorker f outs).2.2 = true := by
  intro outs
  cases outs with
  | nil => simp [runWorker, h]
  | cons ok rest => simp [runWorker, h]

theorem runWorker_dropped_iff : ∀ (outs : List Bool) (f : Nat),
    f < MAX_SYNC_FAILURES →
    ((runWorker f outs).2.2 = true ↔
      failWindow MAX_SYNC_FAILURES (List.replicate f false ++ outs)) := by
  intro outs
  induction outs with
  | nil =>
    intro f hf
    rw [runWorker]
    simp only [List.append_nil]
    constructor
    · intro h
      exfalso
      simp at h
      omega
    · intro h
      exfalso
      have := failWindow_length h
      simp at this
      omega
  | cons ok rest ih =>
    intro f hf
    rw [runWorker, if_neg (Nat.not_le.mpr hf)]
    simp only
    cases ok with
    | true =>
      have h0 : (0 : Nat) < MAX_SYNC_FAILURES := by
        simp [MAX_SYNC_FAILURES]
      rw [show syncStep f true = 0 from rfl]
      rw [ih 0 h0]
      simp only [List.replicate_zero, List.nil_append]
      rw [failWindow_append_true (List.replicate f false) MAX_SYNC_FAILURES rest]
      have hno : ¬ failWindow MAX_SYNC_FAILURES (List.replicate f false) := by
        intro h
        have := failWindow_length h
        simp at this
        omega
      tauto
    | false =>
      rw [show syncStep f false = f + 1 from rfl]
      have hrepl : List.replicate f false ++ false :: rest =
          List.replicate (f + 1) false ++ rest := by
        rw [List.replicate_succ' f false]
        simp
      by_cases hf1 : f + 1 < MAX_SYNC_FAILURES
      · rw [ih (f + 1) hf1, hrepl]
      · have hMAX : MAX_SYNC_FAILURES = f + 1 := by omega
        rw [runWorker_dropped_of_ge (by omega) rest]
        rw [hrepl, hMAX]
        simp only [true_iff]
        exact ⟨[], rest, by simp⟩

theorem mapRangeShift : ∀ (k f : Nat),
    List.map (fun i => (f + i) * TIME_SLEEP_FAILURE) (List.range (k + 1)) =
      f * TIME_SLEEP_FAILURE ::
        List.map (fun i => (f + 1 + i) * TIME_SLEEP_FAILURE) (List.range k) := by
  intro k f
  rw [List.range_succ_eq_map, List.map_cons, List.map_map]
  refine congrArg₂ List.cons rfl ?_
  refine List.map_congr_left ?_
  intro i _
  simp only [Function.comp]
  refine congrArg (fun m => m * TIME_SLEEP_FAILURE) ?_
  omega

theorem runWorker_retry_sleeps : ∀ (k f : Nat), 0 < f →
    f + k < MAX_SYNC_FAILURES →
    runWorker f (List.replicate k false ++ [true]) =
      ((List.range (k + 1)).map (fun i => (f + i) * TIME_SLEEP_FAILURE),
        0, false) := by
  intro k
  induction k with
  | zero =>
    intro f hf hfk
    have hM : MAX_SYNC_FAILURES = 5 := rfl
    rw [List.replicate_zero, List.nil_append, runWorker,
      if_neg (Nat.not_le.mpr (by omega))]
    rw [show syncStep f true = 0 from rfl, runWorker]
    simp [Nat.pos_iff_ne_zero.mp hf, MAX_SYNC_FAILURES,
      show List.range 1 = [0] from by decide]
  | succ k ih =>
    intro f hf hfk
    have hM : MAX_SYNC_FAILURES = 5 := rfl
    rw [List.replicate_succ, List.cons_append, runWorker,
      if_neg (Nat.not_le.mpr (by omega))]
    rw [show syncStep f false = f + 1 from rfl]
    have harg : f + 1 + k < MAX_SYNC_FAILURES := by omega
    rw [ih (f + 1) (Nat.succ_pos f) harg]
    simp only [Nat.pos_iff_ne_zero.mp hf, if_false]
    refine congrArg (fun l => (l, (0 : Nat), false)) ?_
    rw [mapRangeShift (k + 1) f]

theorem runWorker_fail_then_succeed : ∀ (k : Nat), k < MAX_SYNC_FAILURES →
    runWorker 0 (List.replicate k false ++ [true]) =
      ((List.range k).map (fun i => (i + 1) * TIME_SLEEP_FAILURE), 0, false) := by
  intro k hk
  cases k with
  | zero =>
    rw [List.replicate_zero, List.nil_append, runWorker,
      if_neg (Nat.not_le.mpr (by omega))]
    rw [show syncStep 0 true = 0 from rfl, runWorker]
    simp [MAX_SYNC_FAILURES]
  | succ m =>
    rw [List.replicate_succ, List.cons_append, runWorker,
      if_neg (Nat.not_le.mpr (by omega))]
    rw [show syncStep 0 false = 1 from rfl]
    rw [runWorker_retry_sleeps m 1 (by omega) (by omega)]
    simp only [if_pos rfl]
    refine congrArg (fun l => (l, (0 : Nat), false)) ?_
    refine List.map_congr_left ?_
    intro i _
    refine congrArg (fun m => m * TIME_SLEEP_FAILURE) ?_
    omega

theorem runWorker_failcount_step (f : Nat) (ok : Bool)
    (hf : f < MAX_SYNC_FAILURES) :
    (runWorker f [ok]).2.1 = if ok then 0 else f + 1 := by
  rw [runWorker, if_neg (Nat.not_le.mpr hf), runWorker]
  cases ok <;> simp [syncStep]

theorem mem_trees_add_self (q : ItemQueue) (p : Path) :
    p ∈ (q.add ⟨p, true⟩).trees := by
  by_cases h : p ∈ q.trees <;> simp [ItemQueue.add, h]

theorem add_mem_trees_noop (q : ItemQueue) (p : Path) (r : Bool)
    (h : p ∈ q.trees) : q.add ⟨p, r⟩ = q := by
  cases r <;> simp [ItemQueue.add, h]

/-! Claim theorems. -/

/-- C1 (counterexample): starting from the empty ItemQueue, adding the path
/a non-recursively and then recursively leaves /a both in dirs and in trees,
so the queue does not contain the path at most once across dirs and trees,
and a path present in trees is not absent from dirs. -/
theorem add_nonrecursive_then_recursive_duplicates :
    "/a".toList ∈ (ItemQueue.addAll ⟨[], []⟩
      [⟨"/a".toList, false⟩, ⟨"/a".toList, true⟩]).dirs ∧
    "/a".toList ∈ (ItemQueue.addAll ⟨[], []⟩
      [⟨"/a".toList, false⟩, ⟨"/a".toList, true⟩]).trees := by
  decide

/-- C1 (amended): for any sequence of add calls starting from the empty
ItemQueue, dirs contains no duplicate path and trees contains no duplicate
path, every path in dirs was added by some non-recursive add, and every path
in trees was added by some recursive add; a path added first non-recursively
and later recursively may however appear in both collections at once. -/
theorem addAll_dedup_within_collections (its : List Item) (p : Path) :
    (ItemQueue.addAll ⟨[], []⟩ its).dirs.Nodup ∧
    (ItemQueue.addAll ⟨[], []⟩ its).trees.Nodup ∧
    (p ∈ (ItemQueue.addAll ⟨[], []⟩ its).dirs → Item.mk p false ∈ its) ∧
    (p ∈ (ItemQueue.addAll ⟨[], []⟩ its).trees → Item.mk p true ∈ its) := by
  obtain ⟨h1, h2⟩ := addAll_nodup its ⟨[], []⟩ (by simp) (by simp)
  refine ⟨h1, h2, ?_, ?_⟩
  · intro h
    rcases addAll_dirs_provenance its ⟨[], []⟩ p h with h3 | h3
    · simp at h3
    · exact h3
  · intro h
    rcases addAll_trees_provenance its ⟨[], []⟩ p h with h3 | h3
    · simp at h3
    · exact h3

/-- Witness for the amended C1 theorem at a concrete sequence of adds. -/
theorem addAll_dedup_within_collections_witness :
    (ItemQueue.addAll ⟨[], []⟩
      [⟨"/a".toList, false⟩, ⟨"/a".toList, true⟩]).dirs.Nodup ∧
    Item.mk "/a".toList false ∈
      [Item.mk "/a".toList false, Item.mk "/a".toList true] :=
  ⟨(addAll_dedup_within_collections
      [⟨"/a".toList, false⟩, ⟨"/a".toList, true⟩] "/a".toList).1,
   (addAll_dedup_within_collections
      [⟨"/a".toList, false⟩, ⟨"/a".toList, true⟩] "/a".toList).2.2.1 (by decide)⟩

/-- C6 (counterexample): adding /a non-recursively and then recursively to
the empty queue is not equivalent to adding it only recursively: in the
first case /a remains in dirs, in the second it does not, so the two add
orders are not interchangeable. -/
theorem add_order_not_commutative :
    "/a".toList ∈ (((⟨[], []⟩ : ItemQueue).add ⟨"/a".toList, false⟩).add
      ⟨"/a".toList, true⟩).dirs ∧
    "/a".toList ∉ ((⟨[], []⟩ : ItemQueue).add ⟨"/a".toList, true⟩).dirs := by
  decide

/-- C6 (amended): adding a recursive item and then a non-recursive item with
the same path leaves the queue exactly as after the recursive add alone; in
the opposite order the path additionally stays in dirs. -/
theorem add_recursive_absorbs_nonrecursive (q : ItemQueue) (p : Path) :
    (q.add ⟨p, true⟩).add ⟨p, false⟩ = q.add ⟨p, true⟩ :=
  add_mem_trees_noop _ p false (mem_trees_add_self q p)

/-- C8 (counterexample): the class Item defines no equality, so Python
compares Item objects by identity; two distinct Item objects with the same
path and different recursive flags are unequal, refuting equality by path. -/
theorem item_same_path_not_equal :
    pyItemEq ⟨0, "/a".toList, false⟩ ⟨1, "/a".toList, true⟩ = false := by
  decide

/-- C8 (amended): Item objects compare by object identity (the class defines
no equality by path); deduplication by path is instead performed inside
ItemQueue.add, which compares stored path strings and ignores the recursive
flag of the incoming item once its path is staged recursively. -/
theorem item_equality_is_identity (a b : PyItemObj) (q : ItemQueue)
    (p : Path) (r : Bool) (h : p ∈ q.trees) :
    (pyItemEq a b = true ↔ a.oid = b.oid) ∧ q.add ⟨p, r⟩ = q :=
  ⟨by simp [pyItemEq], add_mem_trees_noop q p r h⟩

/-- Witness for the amended C8 theorem at concrete objects and queue. -/
theorem item_equality_is_identity_witness :
    (pyItemEq ⟨0, "/a".toList, false⟩ ⟨0, "/a".toList, true⟩ = true ↔
      (0 : Nat) = 0) ∧
    (⟨[], ["/a".toList]⟩ : ItemQueue).add ⟨"/a".toList, false⟩ =
      ⟨[], ["/a".toList]⟩ :=
  item_equality_is_identity ⟨0, "/a".toList, false⟩ ⟨0, "/a".toList, true⟩
    ⟨[], ["/a".toList]⟩ "/a".toList false (by decide)

/-- C10: ItemQueue.optimize only removes: every path in dirs after the call
was in dirs before, and every path in trees after the call was in trees
before, for any filesystem existence oracle and working directory. -/
theorem optimize_only_removes (fs : Path → Bool) (cwd : Path)
    (q : ItemQueue) (p : Path) :
    (p ∈ (q.optimize fs cwd).dirs → p ∈ q.dirs) ∧
    (p ∈ (q.optimize fs cwd).trees → p ∈ q.trees) :=
  ⟨optimize_dirs_sub fs cwd q p, optimize_trees_sub fs cwd q p⟩

/-- Witness for C10 at a concrete queue. -/
theorem optimize_only_removes_witness :
    "/b".toList ∈ (⟨["/b".toList], ["/a".toList]⟩ : ItemQueue).dirs ∧
    "/a".toList ∈ (⟨["/b".toList], ["/a".toList]⟩ : ItemQueue).trees :=
  ⟨(optimize_only_removes (fun _ => true) "/".toList
      ⟨["/b".toList], ["/a".toList]⟩ "/b".toList).1 (by decide),
   (optimize_only_removes (fun _ => true) "/".toList
      ⟨["/b".toList], ["/a".toList]⟩ "/a".toList).2 (by decide)⟩

/-- C5: after ItemQueue.optimize no path in trees is a strict descendant of
another path in trees, and no path in dirs is a strict descendant of a path
in trees, where a is a strict descendant of b iff the absolute form of a is
strictly longer than the absolute form of b followed by a slash and begins
with that string. -/
theorem optimize_no_strict_descendants (fs : Path → Bool) (cwd : Path)
    (q : ItemQueue) :
    (∀ a ∈ (q.optimize fs cwd).trees, ∀ b ∈ (q.optimize fs cwd).trees,
      ¬ specDescendant cwd a b) ∧
    (∀ d ∈ (q.optimize fs cwd).dirs, ∀ t ∈ (q.optimize fs cwd).trees,
      ¬ specDescendant cwd d t) := by
  constructor
  · intro a ha b hb hspec
    have hfalse := optimize_trees_not_sub fs cwd q a b ha hb
    rw [← isSubdir_iff cwd a b] at hspec
    rw [hfalse] at hspec
    exact Bool.false_ne_true hspec
  · intro d hd t ht hspec
    have hfalse := optimize_dirs_not_sub fs cwd q d t hd ht
    rw [← isSubdir_iff cwd d t] at hspec
    rw [hfalse] at hspec
    exact Bool.false_ne_true hspec

/-- Witness for C5 at a concrete queue with surviving dirs and trees. -/
theorem optimize_no_strict_descendants_witness :
    ¬ specDescendant "/".toList "/a".toList "/a".toList ∧
    ¬ specDescendant "/".toList "/b".toList "/a".toList :=
  ⟨(optimize_no_strict_descendants (fun _ => true) "/".toList
      ⟨["/b".toList], ["/a".toList]⟩).1 "/a".toList (by decide)
      "/a".toList (by decide),
   (optimize_no_strict_descendants (fun _ => true) "/".toList
      ⟨["/b".toList], ["/a".toList]⟩).2 "/b".toList (by decide)
      "/a".toList (by decide)⟩

/-- C7: ItemQueue.optimize is idempotent with a fixed existence oracle: a
second call leaves dirs and trees equal, as sets of paths, to their contents
after the first call. -/
theorem optimize_idempotent (fs : Path → Bool) (cwd : Path) (q : ItemQueue)
    (p : Path) :
    (p ∈ ((q.optimize fs cwd).optimize fs cwd).dirs ↔
      p ∈ (q.optimize fs cwd).dirs) ∧
    (p ∈ ((q.optimize fs cwd).optimize fs cwd).trees ↔
      p ∈ (q.optimize fs cwd).trees) := by
  have hTnotsub : ∀ a ∈ (q.optimize fs cwd).trees,
      ∀ b ∈ (q.optimize fs cwd).trees, isSubdir cwd b a = false :=
    fun a ha b hb => optimize_trees_not_sub fs cwd q a b ha hb
  have hDnotsub : ∀ d ∈ (q.optimize fs cwd).dirs,
      ∀ t ∈ (q.optimize fs cwd).trees, isSubdir cwd t d = false :=
    fun d hd t ht => optimize_dirs_not_sub fs cwd q d t hd ht
  have hDfs : ∀ x ∈ (q.optimize fs cwd).dirs, fs x = true :=
    fun x hx => optimize_dirs_fs fs cwd q x hx
  have hTfs : ∀ x ∈ (q.optimize fs cwd).trees, fs x = true :=
    fun x hx => optimize_trees_fs fs cwd q x hx
  set q1 := q.optimize fs cwd with hq1
  constructor
  · constructor
    · exact optimize_dirs_sub fs cwd q1 p
    · intro h
      have hfs : fs p = true := hDfs p h
      have hne : q1.lenQ ≠ 0 := by
        unfold ItemQueue.lenQ
        have := List.length_pos.mpr (List.ne_nil_of_mem h)
        omega
      unfold ItemQueue.optimize
      rw [if_neg hne]
      simp only [List.mem_filter]
      refine ⟨?_, hfs⟩
      by_cases htl : q1.trees.length ≠ 0
      · have hdl : q1.dirs.length ≠ 0 := by
          have := List.length_pos.mpr (List.ne_nil_of_mem h)
          omega
        rw [if_pos (And.intro htl hdl)]
        refine mem_filter_foldl_of _ _ _ _ h ?_
        intro t htmem
        have ht1 : t ∈ q1.trees := by
          rw [if_pos htl] at htmem
          have := (mem_filter_foldl _ _ _ _ htmem).1
          exact (mem_sortByLen _ _).mp this
        have := hDnotsub p h t ht1
        simp [this]
      · rw [if_neg (by tauto :
          ¬ (q1.trees.length ≠ 0 ∧ q1.dirs.length ≠ 0))]
        exact h
  · constructor
    · exact optimize_trees_sub fs cwd q1 p
    · intro h
      have hfs : fs p = true := hTfs p h
      have hne : q1.lenQ ≠ 0 := by
        unfold ItemQueue.lenQ
        have := List.length_pos.mpr (List.ne_nil_of_mem h)
        omega
      have htl : q1.trees.length ≠ 0 := by
        have := List.length_pos.mpr (List.ne_nil_of_mem h)
        omega
      unfold ItemQueue.optimize
      rw [if_neg hne]
      simp only [List.mem_filter]
      refine ⟨?_, hfs⟩
      rw [if_pos htl]
      refine mem_filter_foldl_of _ _ _ _ ((mem_sortByLen _ _).mpr h) ?_
      intro t htmem
      have ht1 : t ∈ q1.trees := (mem_sortByLen _ _).mp htmem
      have := hTnotsub p h t ht1
      simp [this]

/-- Witness for C7 at a concrete queue. -/
theorem optimize_idempotent_witness :
    "/a".toList ∈ ((ItemQueue.optimize (fun _ => true) "/".toList
        ⟨["/b".toList], ["/a".toList]⟩).optimize (fun _ => true)
        "/".toList).trees ↔
    "/a".toList ∈ (ItemQueue.optimize (fun _ => true) "/".toList
        ⟨["/b".toList], ["/a".toList]⟩).trees :=
  (optimize_idempotent (fun _ => true) "/".toList
    ⟨["/b".toList], ["/a".toList]⟩ "/a".toList).2

/-- C2 (counterexample): on a non-empty queue whose trees half is empty,
synchronize performs exactly one rsync invocation, for the dirs half only,
so the transfer is not invoked once for the recursive half and once for the
non-recursive half. -/
theorem synchronize_skips_empty_half :
    (⟨["/a".toList], []⟩ : ItemQueue).lenQ ≠ 0 ∧
    (synchronize (fun _ _ => true) ⟨["/a".toList], []⟩).2.2 =
      [(["/a".toList], false)] := by
  decide

/-- C2 (amended): synchronize returns success at once on an empty queue with
no rsync invocation; otherwise it invokes the transfer once for each
non-empty half (an empty half succeeds trivially without an invocation),
empties each half exactly when that half succeeded, and reports success iff
both halves succeeded, equivalently iff the queue is empty afterwards. -/
theorem synchronize_spec (rsyncOk : List Path → Bool → Bool) (q : ItemQueue) :
    (q.lenQ = 0 → synchronize rsyncOk q = (q, true, [])) ∧
    (q.lenQ ≠ 0 →
      (synchronize rsyncOk q).2.2 =
        (if q.trees.length = 0 then [] else [(q.trees, true)]) ++
          (if q.dirs.length = 0 then [] else [(q.dirs, false)]) ∧
      (synchronize rsyncOk q).1.trees =
        (if q.trees.isEmpty || rsyncOk q.trees true then [] else q.trees) ∧
      (synchronize rsyncOk q).1.dirs =
        (if q.dirs.isEmpty || rsyncOk q.dirs false then [] else q.dirs) ∧
      (synchronize rsyncOk q).2.1 =
        ((q.trees.isEmpty || rsyncOk q.trees true) &&
          (q.dirs.isEmpty || rsyncOk q.dirs false)) ∧
      ((synchronize rsyncOk q).2.1 = true ↔
        (synchronize rsyncOk q).1.lenQ = 0)) := by
  constructor
  · intro h0
    simp [synchronize, h0]
  · intro h0
    obtain ⟨ds, ts⟩ := q
    rcases ts with _ | ⟨t0, ts'⟩
    · rcases ds with _ | ⟨d0, ds'⟩
      · exfalso
        exact h0 rfl
      · cases hD : rsyncOk (d0 :: ds') false <;>
          simp [synchronize, syncHalf, ItemQueue.lenQ, hD]
    · rcases ds with _ | ⟨d0, ds'⟩
      · cases hT : rsyncOk (t0 :: ts') true <;>
          simp [synchronize, syncHalf, ItemQueue.lenQ, hT]
      · cases hT : rsyncOk (t0 :: ts') true <;>
          cases hD : rsyncOk (d0 :: ds') false <;>
            simp [synchronize, syncHalf, ItemQueue.lenQ, hT, hD]

/-- Witness for the amended C2 theorem: the empty-queue part at the empty
queue and the non-empty part at a queue with one tree and one dir. -/
theorem synchronize_spec_witness :
    synchronize (fun _ _ => true) ⟨[], []⟩ = (⟨[], []⟩, true, []) ∧
    (synchronize (fun _ _ => true) ⟨["/b".toList], ["/a".toList]⟩).2.1 =
      ((["/a".toList] : List Path).isEmpty ||
          (fun _ _ => true) ["/a".toList] true) &&
        ((["/b".toList] : List Path).isEmpty ||
          (fun _ _ => true) ["/b".toList] false) :=
  ⟨(synchronize_spec (fun _ _ => true) ⟨[], []⟩).1 rfl,
   ((synchronize_spec (fun _ _ => true)
      ⟨["/b".toList], ["/a".toList]⟩).2 (by decide)).2.2.2.1⟩

/-- C3: in the running worker loop, driven by the outcomes of the successive
synchronize calls, the destination is dropped iff MAX_SYNC_FAILURES
consecutive failures occur and no sooner; a run of k failures followed by a
success performs the back-off sleeps TIME_SLEEP_FAILURE, 2 times
TIME_SLEEP_FAILURE, up to k times TIME_SLEEP_FAILURE and resets failcount to
0; and a single synchronize outcome resets failcount to 0 on success or
increments it by one on failure. -/
theorem worker_failure_discipline (outs : List Bool) (k f : Nat) (ok : Bool)
    (hk : k < MAX_SYNC_FAILURES) (hf : f < MAX_SYNC_FAILURES) :
    ((runWorker 0 outs).2.2 = true ↔ failWindow MAX_SYNC_FAILURES outs) ∧
    runWorker 0 (List.replicate k false ++ [true]) =
      ((List.range k).map (fun i => (i + 1) * TIME_SLEEP_FAILURE), 0, false) ∧
    (runWorker f [ok]).2.1 = if ok then 0 else f + 1 := by
  refine ⟨?_, runWorker_fail_then_succeed k hk,
    runWorker_failcount_step f ok hf⟩
  have h := runWorker_dropped_iff outs 0 (by decide)
  simpa using h

/-- Witness for C3 at concrete outcome sequences. -/
theorem worker_failure_discipline_witness :
    ((runWorker 0 [false, false, false, false, false]).2.2 = true ↔
      failWindow MAX_SYNC_FAILURES [false, false, false, false, false]) ∧
    runWorker 0 (List.replicate 2 false ++ [true]) =
      ((List.range 2).map (fun i => (i + 1) * TIME_SLEEP_FAILURE), 0, false) ∧
    (runWorker 3 [false]).2.1 = if false then 0 else 3 + 1 :=
  worker_failure_discipline [false, false, false, false, false] 2 3 false
    (by decide) (by decide)

/-- C4 (counterexample): the target /a/b:c does not start with rsync:// and
its sole colon comes after a slash (the part before the first slash is empty
and contains no colon), yet the parser classifies it as remote, because the
code tests for a colon anywhere in the string; moreover for the local target
. with working directory /home/user the shortname is . (the last component
of the normalized path), not the final component user of its absolute form. -/
theorem destination_parse_colon_after_slash :
    (destPathSet "/".toList "/a/b:c".toList).remote = true ∧
    beforeFirst ['/'] "/a/b:c".toList = [] ∧
    pyContains [':'] (beforeFirst ['/'] "/a/b:c".toList) = false ∧
    (destPathSet "/home/user".toList ".".toList).remote = false ∧
    (destPathSet "/home/user".toList ".".toList).name = ".".toList ∧
    afterLastSlash (abspathL "/home/user".toList ".".toList) = "user".toList ∧
    (".".toList : Path) ≠ "user".toList := by
  decide

/-- C4 (amended): for every target that does not start with rsync://, the
parser classifies it as remote iff the string contains a double colon or a
single colon anywhere (not merely before the first slash); every other such
string is local and its shortname is the final path component of the
normalized (not absolute) form of the string. -/
theorem destination_parse_classification (cwd s : Path)
    (h : beginsWith s rsyncMarker = false) :
    (destPathSet cwd s).remote =
      (pyContains [':', ':'] s || pyContains [':'] s) ∧
    ((destPathSet cwd s).remote = false →
      (destPathSet cwd s).name = afterLastSlash (normpathL s)) := by
  unfold destPathSet
  rw [if_neg (by simp [h])]
  by_cases h2 : pyContains [':', ':'] s = true
  · rw [if_pos h2]
    simp [h2]
  · rw [if_neg h2]
    simp only [Bool.not_eq_true] at h2
    by_cases h3 : pyContains [':'] s = true
    · rw [if_pos h3]
      simp [h2, h3]
    · rw [if_neg h3]
      simp only [Bool.not_eq_true] at h3
      simp [h2, h3]

/-- Witness for the amended C4 theorem at a concrete daemon-form target. -/
theorem destination_parse_classification_witness :
    (destPathSet "/".toList "bob@h2::backup".toList).remote =
      (pyContains [':', ':'] "bob@h2::backup".toList ||
        pyContains [':'] "bob@h2::backup".toList) ∧
    ((destPathSet "/".toList "bob@h2::backup".toList).remote = false →
      (destPathSet "/".toList "bob@h2::backup".toList).name =
        afterLastSlash (normpathL "bob@h2::backup".toList)) :=
  destination_parse_classification "/".toList "bob@h2::backup".toList
    (by decide)

/-- C9: Timer operations out of order fail their assertion (modelled as
none): start while running, and stop, reset or remaining while not running;
under correct ordering remaining returns max(0, start_time + time_limit -
now) and is therefore never negative. -/
theorem timer_assertion_discipline (t : Timer) (now limit : ℚ) :
    (t.running = true → t.start now limit = none) ∧
    (t.running = false →
      t.stop = none ∧ t.reset now = none ∧ t.remaining now = none) ∧
    (t.running = true →
      t.remaining now = some (max 0 (t.start_time + t.time_limit - now)) ∧
      ∀ r, t.remaining now = some r → 0 ≤ r) := by
  obtain ⟨run, st, li⟩ := t
  cases run
  · refine ⟨?_, ?_, ?_⟩
    · intro h
      simp at h
    · intro _
      simp [Timer.stop, Timer.reset, Timer.remaining]
    · intro h
      simp at h
  · refine ⟨?_, ?_, ?_⟩
    · intro _
      simp [Timer.start]
    · intro h
      simp at h
    · intro _
      refine ⟨by simp [Timer.remaining], ?_⟩
      intro r hr
      simp [Timer.remaining] at hr
      rw [← hr]
      exact le_max_left 0 _

/-- Witness for C9 at concrete timers and times. -/
theorem timer_assertion_discipline_witness :
    (⟨true, 0, 5⟩ : Timer).start 1 2 = none ∧
    (⟨false, 0, 5⟩ : Timer).stop = none ∧
    (⟨true, 0, 5⟩ : Timer).remaining 3 = some (max 0 (0 + 5 - 3)) :=
  ⟨(timer_assertion_discipline ⟨true, 0, 5⟩ 1 2).1 rfl,
   ((timer_assertion_discipline ⟨false, 0, 5⟩ 3 0).2.1 rfl).1,
   ((timer_assertion_discipline ⟨true, 0, 5⟩ 3 0).2.2 rfl).1⟩

end Pylsyncd
